import Mathlib

/-!
# persistgraphql-webpack-plugin: a verification development

A shallow embedding of `index.js` (the `PersistGraphQLPlugin` constructor, `_addListener`,
`_notify`, and the hooks installed by `apply`: `compilation`, `after-resolve`, `seal`,
`after-compile`).

Conventions of the embedding.

* Plugin instances are JavaScript objects that refer to each other (`options.provider`,
  `_listeners`).  They live in a heap (a list of instances); a reference is an index into it.
* Effects on collaborators (`virtualModules.writeModule`, calling a resolver continuation) and
  the calls of `_notify` are recorded, in order, in a trace of events.
* `undefined` is `none`.  A string is falsy exactly when it is empty.
* A JavaScript object with string keys is the list of its own properties in enumeration order.
  This is exact for keys that are not array indices, which holds for GraphQL operation texts.
* The GraphQL parser and printer, `ExtractGQL`, the digests and `path` are collaborators that are
  not part of the repository; they are fields of `External`.
-/

namespace PersistGraphQL

/-! ## JavaScript values -/

/-- Own properties of an object with string keys, in enumeration order. -/
abbrev JSObject (α : Type) := List (String × α)

/-- The result of `Object.keys(o)`. -/
def JSObject.keys {α : Type} (o : JSObject α) : List String := o.map Prod.fst

/-- The assignment `o[k] = v`: an existing own property keeps its place, a new one goes last. -/
def JSObject.set {α : Type} : JSObject α → String → α → JSObject α
  | [], k, v => [(k, v)]
  | (k0, v0) :: rest, k, v =>
    if k0 = k then (k0, v) :: rest else (k0, v0) :: JSObject.set rest k v

/-- Truthiness of a value that is `undefined` or a string. -/
def truthy : Option String → Bool
  | none => false
  | some s => s != ""

/-- Index of the first occurrence of `needle` in `hay` starting the count at `i`, or `-1`. -/
def indexOfFrom (needle : List Char) : List Char → Nat → Int
  | [], i => if needle = [] then (i : Int) else -1
  | c :: cs, i => if needle.isPrefixOf (c :: cs) then (i : Int) else indexOfFrom needle cs (i + 1)

/-- The method `String.prototype.indexOf` with one argument. -/
def indexOf (hay needle : String) : Int := indexOfFrom needle.toList hay.toList 0

/-! ## Data model -/

deriving instance DecidableEq for Except

/-- Errors that abort the running function. -/
inductive Error where
  /-- The `Error` thrown by the constructor: "moduleName option is required for PersistGraphQLPlugin". -/
  | moduleNameRequired
  /-- A `TypeError` of the runtime (a property read or a call on `undefined`). -/
  | typeError
  /-- An error thrown by the GraphQL parser. -/
  | syntaxError (message : String)
  deriving DecidableEq, Repr

/-- The options bag given to the constructor; `provider` is a reference to another instance. -/
structure Options where
  moduleName : Option String := none
  filename : Option String := none
  addTypename : Bool := false
  useHashes : Bool := false
  hashingAlgorithm : Option String := none
  provider : Option Nat := none
  deriving DecidableEq, Repr

/-- The `result` handed to the `after-resolve` hook. -/
structure ResolveResult where
  request : String
  resource : String
  deriving DecidableEq, Repr

/-- The closure stored in `_callback`: calling it runs `callback(null, result)`. -/
structure Pending where
  callback : Nat
  result : ResolveResult
  deriving DecidableEq, Repr

/-- A plugin instance. -/
structure Plugin where
  options : Options
  _listeners : Option (List Nat)
  _queryMap : Option String
  _callback : Option Pending
  deriving DecidableEq, Repr

/-- Observable effects, in the order they happen. -/
inductive Event where
  /-- The call `inst.virtualModules.writeModule(name, content)`. -/
  | writeModule (inst : Nat) (name : Option String) (content : Option String)
  /-- The call of a resolver continuation: `callback()` is `none`, `callback(null, result)` is `some result`. -/
  | callback (inst : Nat) (callback : Nat) (result : Option ResolveResult)
  /-- The call `inst._notify(queryMap)`. -/
  | notify (inst : Nat) (queryMap : Option String)
  deriving DecidableEq, Repr

/-- All instances and the effects so far. -/
structure World where
  heap : List Plugin
  trace : List Event
  deriving DecidableEq, Repr

/-! ## Constructor and `_addListener` -/

/-- The method `_addListener`, called on the instance at `self`: `this._listeners.push(listener)`. -/
def _addListener (self listener : Nat) (heap : List Plugin) : Except Error (List Plugin) :=
  match heap[self]? with
  | none => .error .typeError
  | some p =>
    match p._listeners with
    | none => .error .typeError
    | some ls => .ok (heap.set self { p with _listeners := some (ls ++ [listener]) })

/-- The constructor `PersistGraphQLPlugin(options)`; the new instance gets the next free
reference. -/
def PersistGraphQLPlugin (options : Option Options) (w : World) : Except Error (Nat × World) :=
  let opts : Options := options.getD {}
  if !truthy opts.moduleName then .error .moduleNameRequired
  else
    let self := w.heap.length
    match opts.provider with
    | some provider =>
      match _addListener provider self w.heap with
      | .error e => .error e
      | .ok heap =>
        .ok (self, { w with heap := heap ++
          [{ options := opts, _listeners := none, _queryMap := none, _callback := none }] })
    | none =>
      .ok (self, { w with heap := w.heap ++
        [{ options := opts, _listeners := some [], _queryMap := none, _callback := none }] })

/-! ## `_notify` and the hooks of a listener -/

/-- The method `_notify(queryMap)` called on the instance at `self`. -/
def _notify (self : Nat) (queryMap : Option String) (w : World) : World :=
  match w.heap[self]? with
  | none => w
  | some p =>
    let called := w.trace ++ [Event.notify self queryMap]
    let written :=
      if p._queryMap ≠ queryMap then
        called ++ [Event.writeModule self p.options.moduleName queryMap]
      else called
    let resumed :=
      match p._callback with
      | some pending => written ++ [Event.callback self pending.callback (some pending.result)]
      | none => written
    { heap := w.heap.set self { p with _queryMap := queryMap, _callback := none },
      trace := resumed }

/-- The first `compilation` hook; `isChild` says whether `compilation.compiler.parentCompilation`
is set. -/
def onCompilation (self : Nat) (isChild : Bool) (w : World) : World :=
  match w.heap[self]? with
  | none => w
  | some p =>
    if !truthy p._queryMap && !isChild then
      { w with trace := w.trace ++ [Event.writeModule self p.options.moduleName (some "\x7b\x7d")] }
    else w

/-- The test `result.request.indexOf(self.options.moduleName) >= 0`. -/
def requestHasModuleName (moduleName : Option String) (result : ResolveResult) : Bool :=
  decide (indexOf result.request (moduleName.getD "undefined") ≥ 0)

/-- The `after-resolve` hook of the instance at `self`, called with `result` and the continuation
identified by `callback`. -/
def afterResolve (self : Nat) (result : Option ResolveResult) (callback : Nat) (w : World) :
    World :=
  match w.heap[self]? with
  | none => w
  | some p =>
    match result with
    | none => { w with trace := w.trace ++ [Event.callback self callback none] }
    | some r =>
      if p.options.provider.isSome && requestHasModuleName p.options.moduleName r
          && !truthy p._queryMap then
        let pending : Pending := { callback := callback, result := r }
        { w with heap := w.heap.set self { p with _callback := some pending } }
      else
        { w with trace := w.trace ++ [Event.callback self callback (some r)] }

/-- A run of `after-resolve` calls, each with its result and its continuation. -/
def afterResolveAll (self : Nat) (calls : List (Option ResolveResult × Nat)) (w : World) :
    World :=
  calls.foldl (fun acc c => afterResolve self c.1 c.2 acc) w

/-! ## GraphQL documents and the fragment loop -/

/-- A definition node of a document: its `kind`, its `name.value` and the rest of the node. -/
structure Definition where
  kind : String
  name : String
  body : String
  deriving DecidableEq, Repr

/-- A document node. -/
structure Document where
  definitions : List Definition
  deriving DecidableEq, Repr

/-- Names that every object literal inherits from `Object.prototype`; reading any of them from
an object that has no own property of that name gives a truthy value. -/
def objectPrototypeKeys : List String :=
  ["constructor", "__defineGetter__", "__defineSetter__", "hasOwnProperty", "__lookupGetter__",
   "__lookupSetter__", "isPrototypeOf", "propertyIsEnumerable", "toString", "valueOf",
   "__proto__", "toLocaleString"]

/-- Truthiness of `fragmentMap[name]`, where `fragmentMap` started as the literal `{}` and `own`
lists the names assigned `true` since. -/
def fragmentMapTruthy (own : List String) (name : String) : Bool :=
  own.contains name || objectPrototypeKeys.contains name

/-- The loop `for (var i = document.definitions.length - 1; i >= 0; i--)` of the seal hook,
entered with `i + 1 = n`; `own` lists the names set in `fragmentMap`. -/
def fragmentLoop : Nat → List Definition → List String → List Definition
  | 0, definitions, _ => definitions
  | i + 1, definitions, own =>
    match definitions[i]? with
    | none => fragmentLoop i definitions own
    | some d =>
      if d.kind = "FragmentDefinition" then
        if !fragmentMapTruthy own d.name then
          fragmentLoop i definitions (d.name :: own)
        else
          fragmentLoop i (definitions.eraseIdx i) own
      else fragmentLoop i definitions own

/-- The whole loop on one document, with `fragmentMap = {}` at the start. -/
def dedupeFragments (document : Document) : Document :=
  { definitions := fragmentLoop document.definitions.length document.definitions [] }

/-- The forward reading of the loop in the words of the specification, first pass: the index at
which each fragment name was seen last. -/
def lastSeenIndex (definitions : List Definition) : JSObject Nat :=
  definitions.enum.foldl
    (fun seen p => if p.2.kind = "FragmentDefinition" then seen.set p.2.name p.1 else seen) []

/-- The forward reading, second pass: keep what is not a fragment, and a fragment only at the
last index its name was seen at. -/
def keepLastSeen (definitions : List Definition) : List Definition :=
  (definitions.enum.filter (fun p =>
    p.2.kind ≠ "FragmentDefinition" || (lastSeenIndex definitions).lookup p.2.name == some p.1)).map
    Prod.snd

/-! ## Collaborators outside the repository -/

/-- The collaborators the seal hook calls: the GraphQL library, `ExtractGQL`, `crypto-js` and
`path`.  A flag says whether the extractor was built with the typename transformer. -/
structure External where
  /-- The call `sha256(text).toString()`. -/
  sha256 : String → String
  /-- The call `sha512(text).toString()`. -/
  sha512 : String → String
  /-- The expression `graphql.print(addTypenameTransformer(JSON.parse(JSON.stringify(graphql.parse(q)))))`. -/
  printWithTypename : String → Except Error String
  /-- The call `graphql.parse(text)`. -/
  parse : String → Except Error Document
  /-- The call `graphql.separateOperations(doc)`: one document per operation name. -/
  separateOperations : Document → JSObject Document
  /-- The call `extractor.createMapFromDocument(document)`. -/
  createMapFromDocument : Bool → Document → JSObject Nat
  /-- Parsing a source text and printing each of its operations back as canonical text, in the
  order of the source. -/
  canonicalOperations : Bool → String → Except Error (List String)
  /-- The expression `path.resolve(path.join(context, name))`. -/
  pathResolveJoin : String → String → String

/-- A compiled module of the host build with the attributes the plugin reads and writes;
`_source` is `module._source._value`. -/
structure Module where
  resource : Option String
  _graphQLQueries : Option (JSObject String)
  _graphQLString : Option String
  _source : Option String
  deriving DecidableEq, Repr

/-- A compilation: its modules, whether it has a parent compilation, and `compiler.context`. -/
structure Compilation where
  modules : List Module
  isChild : Bool
  context : String
  deriving DecidableEq, Repr

/-- An identifier of the query map: a sequential number or a digest. -/
inductive Identifier where
  | number (n : Nat)
  | text (s : String)
  deriving DecidableEq, Repr

/-! ## The seal hook: collecting operation texts -/

/-- The loop `Object.keys(queries).forEach(function(query) ...)` that pushes onto `allQueries`. -/
def pushQueries (env : External) (addTypename : Bool) :
    List String → List String → Except Error (List String)
  | [], allQueries => .ok allQueries
  | query :: rest, allQueries =>
    if addTypename then
      match env.printWithTypename query with
      | .error e => .error e
      | .ok printed => pushQueries env addTypename rest (allQueries ++ [printed])
    else pushQueries env addTypename rest (allQueries ++ [query])

/-- The loop `compilation.modules.forEach(function(module) ...)`, on the pair
`(allQueries, graphQLString)`. -/
def collectModules (env : External) (addTypename : Bool) :
    List Module → List String × String → Except Error (List String × String)
  | [], acc => .ok acc
  | m :: rest, (allQueries, graphQLString) =>
    match m._graphQLQueries with
    | some queries =>
      match pushQueries env addTypename (JSObject.keys queries) allQueries with
      | .error e => .error e
      | .ok pushed => collectModules env addTypename rest (pushed, graphQLString)
    | none =>
      if truthy m._graphQLString then
        collectModules env addTypename rest
          (allQueries, graphQLString ++ m._graphQLString.getD "")
      else collectModules env addTypename rest (allQueries, graphQLString)

/-- The call `_.merge(dest, src)` on flat objects. -/
def merge (dest src : JSObject Nat) : JSObject Nat :=
  src.foldl (fun o kv => JSObject.set o kv.1 kv.2) dest

/-- The branch `if (graphQLString)`: the object `queries` built from the raw blob. -/
def blobQueries (env : External) (addTypename : Bool) (graphQLString : String) :
    Except Error (JSObject Nat) :=
  match env.parse graphQLString with
  | .error e => .error e
  | .ok doc =>
    .ok ((env.separateOperations doc).foldl
      (fun queries entry =>
        merge queries (env.createMapFromDocument addTypename (dedupeFragments entry.2))) [])

/-- The list `allQueries` when the seal hook reaches `var mapObj`. -/
def collectQueries (env : External) (addTypename : Bool) (modules : List Module) :
    Except Error (List String) :=
  match collectModules env addTypename modules ([], "") with
  | .error e => .error e
  | .ok (allQueries, graphQLString) =>
    if graphQLString != "" then
      match blobQueries env addTypename graphQLString with
      | .error e => .error e
      | .ok queries => .ok (allQueries ++ JSObject.keys queries)
    else .ok allQueries

/-! ## The seal hook: building the map -/

/-- Identifier assignment in the words of the specification: each text gets, at its first
appearance, the next integer, starting at 1; later appearances add nothing. -/
def assignIdentifiers (texts : List String) : JSObject Nat :=
  texts.foldl (fun o t => if (JSObject.keys o).contains t then o else o ++ [(t, o.length + 1)]) []

/-- Modelled from the spec: `ExtractGQL.createOutputMapFromString` of the persistgraphql library,
which is not under src/.  Section 4.2, step 3: the canonical operation texts of the source form
one ordered sequence, exact text equality is the identity, and identifiers are sequential integers
starting at 1 in order of first appearance. -/
def createOutputMapFromString (env : External) (addTypename : Bool) (docString : String) :
    Except Error (JSObject Nat) :=
  match env.canonicalOperations addTypename docString with
  | .error e => .error e
  | .ok texts => .ok (assignIdentifiers texts)

/-- The choice of `hash` from `options.hashingAlgorithm`. -/
def selectHash (env : External) (hashingAlgorithm : Option String) : String → String :=
  if hashingAlgorithm = some "sha256" then env.sha256
  else if hashingAlgorithm = some "sha512" then env.sha512
  else env.sha512

/-- The loop `Object.keys(mapObj).forEach(function(query) ...)` that fills `newMap`. -/
def hashKeys (hash : String → String) (mapObj : JSObject Nat) : JSObject Identifier :=
  (JSObject.keys mapObj).foldl (fun newMap query => JSObject.set newMap query (.text (hash query))) []

/-- The value of `mapObj` before it is serialized; `none` is `undefined`. -/
def buildMapObj (env : External) (options : Options) (allQueries : List String) :
    Except Error (Option (JSObject Identifier)) :=
  if allQueries.length != 0 then
    match createOutputMapFromString env options.addTypename ("\n".intercalate allQueries) with
    | .error e => .error e
    | .ok mapObj =>
      if options.useHashes then
        .ok (some (hashKeys (selectHash env options.hashingAlgorithm) mapObj))
      else .ok (some (mapObj.map (fun kv => (kv.1, Identifier.number kv.2))))
  else .ok none

/-! ## `JSON.stringify` -/

/-- Two lower-case hexadecimal digits of a number below 256. -/
def hexByte (n : Nat) : String :=
  String.mk [(Nat.toDigits 16 (n / 16)).getD 0 (Char.ofNat 48),
    (Nat.toDigits 16 (n % 16)).getD 0 (Char.ofNat 48)]

/-- The escape of one character inside a JSON string. -/
def jsonEscape (c : Char) : String :=
  if c.toNat = 34 then "\\\""
  else if c.toNat = 92 then "\\\\"
  else if c.toNat = 8 then "\\b"
  else if c.toNat = 9 then "\\t"
  else if c.toNat = 10 then "\\n"
  else if c.toNat = 12 then "\\f"
  else if c.toNat = 13 then "\\r"
  else if c.toNat < 32 then "\\u00" ++ hexByte c.toNat
  else String.singleton c

/-- The JSON text of a string. -/
def jsonQuote (s : String) : String :=
  "\"" ++ String.join (s.toList.map jsonEscape) ++ "\""

/-- The JSON text of an identifier. -/
def stringifyIdentifier : Identifier → String
  | .number n => toString n
  | .text s => jsonQuote s

/-- The call `JSON.stringify(mapObj)` on a map object. -/
def stringify (mapObj : JSObject Identifier) : String :=
  "\x7b" ++ ",".intercalate (mapObj.map (fun kv => jsonQuote kv.1 ++ ":" ++ stringifyIdentifier kv.2))
    ++ "\x7d"

/-! ## The seal hook: publishing -/

/-- The loop over `compilation.modules` that rewrites the source of the resolved virtual
module. -/
def rewriteModules (env : External) (moduleName : Option String) (context : String)
    (queryMap : Option String) : List Module → Except Error (List Module)
  | [] => .ok []
  | m :: rest =>
    let rewritten : Except Error Module :=
      match m._source with
      | none => .error .typeError
      | some _ =>
        .ok { m with _source := some ("module.exports = " ++ queryMap.getD "undefined" ++ ";") }
    let visited : Except Error Module :=
      if m.resource = moduleName then rewritten
      else
        match moduleName with
        | none => .error .typeError
        | some name =>
          if m.resource = some (env.pathResolveJoin context name) then rewritten else .ok m
    match visited with
    | .error e => .error e
    | .ok m1 =>
      match rewriteModules env moduleName context queryMap rest with
      | .error e => .error e
      | .ok rest1 => .ok (m1 :: rest1)

/-- The loop `self._listeners.forEach(function(listener) ...)`; `self._queryMap` is read at each
turn. -/
def notifyListeners (self : Nat) : List Nat → World → World
  | [], w => w
  | listener :: rest, w =>
    let queryMap := match w.heap[self]? with
      | some p => p._queryMap
      | none => none
    notifyListeners self rest (_notify listener queryMap w)

/-- The body of the `seal` hook of the instance at `self`. -/
def onSeal (env : External) (self : Nat) (compilation : Compilation) (w : World) :
    Except Error (World × List Module) :=
  match w.heap[self]? with
  | none => .error .typeError
  | some p =>
    match collectQueries env p.options.addTypename compilation.modules with
    | .error e => .error e
    | .ok allQueries =>
      match buildMapObj env p.options allQueries with
      | .error e => .error e
      | .ok mapObj =>
        let newQueryMap := mapObj.map stringify
        let published : Except Error (World × List Module) :=
          if newQueryMap ≠ p._queryMap then
            match rewriteModules env p.options.moduleName compilation.context newQueryMap
                compilation.modules with
            | .error e => .error e
            | .ok modules =>
              .ok ({ heap := w.heap.set self { p with _queryMap := newQueryMap },
                     trace := w.trace ++ [Event.writeModule self p.options.moduleName newQueryMap] },
                   modules)
          else .ok (w, compilation.modules)
        match published with
        | .error e => .error e
        | .ok (w1, modules) =>
          match p._listeners with
          | none => .error .typeError
          | some listeners => .ok (notifyListeners self listeners w1, modules)

/-- The `seal` hook as `apply` installs it: only without a provider, only on a root
compilation. -/
def sealHook (env : External) (self : Nat) (compilation : Compilation) (w : World) :
    Except Error (World × List Module) :=
  match w.heap[self]? with
  | none => .error .typeError
  | some p =>
    if p.options.provider.isSome || compilation.isChild then .ok (w, compilation.modules)
    else onSeal env self compilation w

/-- The `after-compile` hook as `apply` installs it: the assets after the hook ran. -/
def afterCompile (self : Nat) (isChild : Bool) (assets : JSObject (Option String)) (w : World) :
    JSObject (Option String) :=
  match w.heap[self]? with
  | none => assets
  | some p =>
    match p.options.filename with
    | none => assets
    | some filename =>
      if filename != "" && !isChild then JSObject.set assets filename p._queryMap else assets

/-! ## Predicates used in the statements -/

/-- Names of the fragment definitions of a list. -/
def fragmentNames (definitions : List Definition) : List String :=
  (definitions.filter (fun d => d.kind = "FragmentDefinition")).map Definition.name

/-- What the loop leaves of `definitions` when `own` lists the names already set: a fragment is
dropped when a later fragment has its name or `fragmentMap` already answers truthy for it. -/
def keepWith : List Definition → List String → List Definition
  | [], _ => []
  | d :: rest, own =>
    if d.kind = "FragmentDefinition" ∧
        (d.name ∈ fragmentNames rest ∨ fragmentMapTruthy own d.name = true) then
      keepWith rest own
    else d :: keepWith rest own

/-- The reading of the specification: a fragment is dropped exactly when a later fragment has
its name. -/
def keepLast : List Definition → List Definition
  | [] => []
  | d :: rest =>
    if d.kind = "FragmentDefinition" ∧ d.name ∈ fragmentNames rest then keepLast rest
    else d :: keepLast rest

/-- Whether a call of the `after-resolve` hook carries a request for the virtual module. -/
def isDeferred (moduleName : Option String) (call : Option ResolveResult × Nat) : Bool :=
  match call.1 with
  | some r => requestHasModuleName moduleName r
  | none => false

/-- The calls of `_notify` recorded in a trace, in order. -/
def notifyCalls (trace : List Event) : List (Nat × Option String) :=
  trace.filterMap (fun e =>
    match e with
    | Event.notify inst queryMap => some (inst, queryMap)
    | _ => none)

/-- The texts one module contributes through its `_graphQLQueries`. -/
def namedTexts (env : External) (addTypename : Bool) (m : Module) : Except Error (List String) :=
  match m._graphQLQueries with
  | some queries => pushQueries env addTypename (JSObject.keys queries) []
  | none => .ok []

/-- The text one module contributes to the raw blob. -/
def rawText (m : Module) : String :=
  match m._graphQLQueries with
  | some _ => ""
  | none => if truthy m._graphQLString then m._graphQLString.getD "" else ""

/-- The texts extracted from the raw blob, none when the blob is empty. -/
def blobTexts (env : External) (addTypename : Bool) (graphQLString : String) :
    Except Error (List String) :=
  if graphQLString != "" then
    match blobQueries env addTypename graphQLString with
    | .error e => .error e
    | .ok queries => .ok (JSObject.keys queries)
  else .ok []

/-! ## Sample inputs -/

/-- The lines of a text; `current` holds the characters of the line being read, reversed. -/
def splitLines : List Char → List Char → List String
  | [], current => [String.mk current.reverse]
  | c :: rest, current =>
    if c = Char.ofNat 10 then String.mk current.reverse :: splitLines rest []
    else splitLines rest (c :: current)

/-- A small stand-in for the collaborators, used to run the hooks on concrete inputs: every line
of a source text is one operation named by its text and already canonical, and the digests are
tagged copies of their input. -/
def sampleExternal : External where
  sha256 := fun text => "sha256:" ++ text
  sha512 := fun text => "sha512:" ++ text
  printWithTypename := fun q => .ok (q ++ " __typename")
  parse := fun text =>
    .ok (Document.mk ((splitLines text.toList []).map
      (fun line => { kind := "OperationDefinition", name := line, body := line })))
  separateOperations := fun doc => doc.definitions.map (fun d => (d.name, { definitions := [d] }))
  createMapFromDocument := fun _ doc => doc.definitions.map (fun d => (d.body, 1))
  canonicalOperations := fun _ text => .ok (splitLines text.toList [])
  pathResolveJoin := fun context name => context ++ "/" ++ name

/-- A world with one instance, built without a provider. -/
def providerWorld : World :=
  { heap := [{ options := { moduleName := some "m" }, _listeners := some [], _queryMap := none,
               _callback := none }],
    trace := [] }

/-- The world after a second instance was built with the first as its provider. -/
def listenerWorld : World :=
  { heap := [{ options := { moduleName := some "m" }, _listeners := some [1], _queryMap := none,
               _callback := none },
             { options := { moduleName := some "m", provider := some 0 }, _listeners := none,
               _queryMap := none, _callback := none }],
    trace := [] }

/-- The listener of `listenerWorld`. -/
def listenerPlugin : Plugin :=
  { options := { moduleName := some "m", provider := some 0 }, _listeners := none,
    _queryMap := none, _callback := none }

/-- A compilation with one module that carries a named-operations mapping. -/
def sampleCompilation : Compilation :=
  { modules := [{ resource := some "entry.js", _graphQLQueries := some [("query A", "1")],
                  _graphQLString := none, _source := some "code" }],
    isChild := false, context := "/ctx" }

/-- The world `listenerWorld` after the provider sealed `sampleCompilation` once. -/
def sealedWorld : World :=
  { heap := [{ options := { moduleName := some "m" }, _listeners := some [1],
               _queryMap := some "\x7b\"query A\":1\x7d", _callback := none },
             { options := { moduleName := some "m", provider := some 0 }, _listeners := none,
               _queryMap := some "\x7b\"query A\":1\x7d", _callback := none }],
    trace := [Event.writeModule 0 (some "m") (some "\x7b\"query A\":1\x7d"),
              Event.notify 1 (some "\x7b\"query A\":1\x7d"),
              Event.writeModule 1 (some "m") (some "\x7b\"query A\":1\x7d")] }

/-- A compilation whose only module carries neither extraction attribute. -/
def emptyCompilation : Compilation :=
  { modules := [{ resource := some "index.js", _graphQLQueries := none, _graphQLString := none,
                  _source := some "code" }],
    isChild := false, context := "/ctx" }

/-- A world with one instance that has a `filename` and one listener, before any build. -/
def emittingWorld : World :=
  { heap := [{ options := { moduleName := some "m", filename := some "out.json" },
               _listeners := some [1], _queryMap := none, _callback := none },
             { options := { moduleName := some "m", provider := some 0 }, _listeners := none,
               _queryMap := none, _callback := none }],
    trace := [] }

/-- The canonical text the printer gives the two operations of the test suite; other texts are
taken as canonical already. -/
def scenarioCanon (text : String) : String :=
  if text = "subscription onCounterUpdated \x7b counterUpdated \x7b amount \x7d \x7d" then
    "subscription onCounterUpdated \x7b\n  counterUpdated \x7b\n    amount\n  \x7d\n\x7d\n"
  else if text = "query getCount \x7b count \x7b amount \x7d \x7d" then
    "query getCount \x7b\n  count \x7b\n    amount\n  \x7d\n\x7d\n"
  else text

/-- The stand-in collaborators with a printer that knows the operations of the test suite. -/
def scenarioExternal : External :=
  { sampleExternal with
    canonicalOperations := fun _ text => .ok ((splitLines text.toList []).map scenarioCanon) }

/-- The operation texts of the test suite, the first one collected twice. -/
def scenarioQueries : List String :=
  ["subscription onCounterUpdated \x7b counterUpdated \x7b amount \x7d \x7d",
   "query getCount \x7b count \x7b amount \x7d \x7d",
   "subscription onCounterUpdated \x7b counterUpdated \x7b amount \x7d \x7d"]

/-! # Theorems -/

/-! ## Construction (C1) -/

/-- The method `_addListener` throws exactly when its receiver holds no listener list. -/
theorem addListener_error_iff (self listener : Nat) (heap : List Plugin) :
    (∃ e, _addListener self listener heap = .error e) ↔
      (heap[self]?.bind Plugin._listeners) = none := by
  unfold _addListener
  cases h : heap[self]? with
  | none => simp
  | some p =>
    cases hl : p._listeners with
    | none => simp [hl]
    | some ls => simp [hl]

/-- Claim C1, amended: constructing `PersistGraphQLPlugin` fails with an error if and only if
the options are absent or their `moduleName` is missing or falsy, or a provider is given that
holds no listener list (an instance that is itself a listener, or no plugin instance at all); for
every options object with a truthy `moduleName` and no provider, construction succeeds and yields
an instance with an empty listener list. -/
theorem constructor_error_iff (options : Option Options) (w : World) :
    ((∃ e, PersistGraphQLPlugin options w = .error e) ↔
      (truthy (options.getD {}).moduleName = false ∨
        ∃ provider, (options.getD {}).provider = some provider ∧
          (w.heap[provider]?.bind Plugin._listeners) = none)) ∧
    (∀ opts : Options, options = some opts → truthy opts.moduleName = true →
      opts.provider = none →
      PersistGraphQLPlugin options w = .ok (w.heap.length, { w with heap := w.heap ++
        [{ options := opts, _listeners := some [], _queryMap := none, _callback := none }] })) := by
  constructor
  · simp only [PersistGraphQLPlugin]
    generalize options.getD {} = opts
    cases hm : truthy opts.moduleName with
    | false => simp
    | true =>
      cases hp : opts.provider with
      | none => simp
      | some provider =>
        have key := addListener_error_iff provider w.heap.length w.heap
        cases ha : _addListener provider w.heap.length w.heap with
        | error e =>
          have : (w.heap[provider]?.bind Plugin._listeners) = none := key.mp ⟨e, ha⟩
          simp only [ha]
          simpa using this
        | ok heap =>
          have : ¬ (w.heap[provider]?.bind Plugin._listeners) = none := by
            intro hn
            obtain ⟨e, he⟩ := key.mpr hn
            rw [ha] at he
            cases he
          simp only [ha]
          simpa using this
  · intro opts ho hm hp
    subst ho
    simp [PersistGraphQLPlugin, hm, hp]

/-- Witness for C1: the theorem applied to the options `{ moduleName: "m" }` in an empty
world. -/
theorem constructor_error_iff_witness :
    PersistGraphQLPlugin (some { moduleName := some "m" }) { heap := [], trace := [] } =
      .ok (0, providerWorld) :=
  (constructor_error_iff (some { moduleName := some "m" }) { heap := [], trace := [] }).2
    { moduleName := some "m" } rfl (by decide) rfl

/-- Counterexample to C1 as stated: after `a = new Plugin({moduleName})` and
`b = new Plugin({moduleName, provider: a})`, the call `new Plugin({moduleName, provider: b})`
throws although the options are present and `moduleName` is truthy. -/
theorem constructor_fails_on_listener_provider :
    PersistGraphQLPlugin (some { moduleName := some "m" }) { heap := [], trace := [] } =
        .ok (0, providerWorld) ∧
    PersistGraphQLPlugin (some { moduleName := some "m", provider := some 0 }) providerWorld =
        .ok (1, listenerWorld) ∧
    ¬ ((∃ e, PersistGraphQLPlugin (some { moduleName := some "m", provider := some 1 })
          listenerWorld = .error e) ↔
        ((some { moduleName := some "m", provider := some 1 } : Option Options) = none ∨
          truthy (some "m") = false)) := by
  refine ⟨by decide, by decide, ?_⟩
  intro h
  have : ∃ e, PersistGraphQLPlugin (some { moduleName := some "m", provider := some 1 })
      listenerWorld = .error e := ⟨.typeError, by decide⟩
  have h2 := h.mp this
  revert h2
  decide

/-! ## The resolution hook and `_notify` (C2, C9) -/

/-- One `after-resolve` call on a listener without a map: options and map stay, and the
continuation is called exactly when the call is not one for the virtual module. -/
theorem afterResolve_listener_step (self : Nat) (w : World) (p : Plugin)
    (call : Option ResolveResult × Nat)
    (hp : w.heap[self]? = some p) (hprov : p.options.provider.isSome = true)
    (hmap : truthy p._queryMap = false) :
    ∃ p1, (afterResolve self call.1 call.2 w).heap[self]? = some p1 ∧
      p1.options = p.options ∧ p1._queryMap = p._queryMap ∧
      (afterResolve self call.1 call.2 w).trace =
        w.trace ++ ([call].filter (fun c => !isDeferred p.options.moduleName c)).map
          (fun c => Event.callback self c.2 c.1) := by
  obtain ⟨result, cb⟩ := call
  have hlt : self < w.heap.length := by
    rcases Nat.lt_or_ge self w.heap.length with h | h
    · exact h
    · rw [List.getElem?_eq_none h] at hp; cases hp
  cases result with
  | none =>
    refine ⟨p, ?_, rfl, rfl, ?_⟩
    · simp [afterResolve, hp]
    · simp [afterResolve, hp, isDeferred]
  | some r =>
    cases hreq : requestHasModuleName p.options.moduleName r with
    | true =>
      refine ⟨{ p with _callback := some { callback := cb, result := r } }, ?_, rfl, rfl, ?_⟩
      · simp [afterResolve, hp, hprov, hmap, hreq, hlt]
      · simp [afterResolve, hp, hprov, hmap, hreq, isDeferred]
    | false =>
      refine ⟨p, ?_, rfl, rfl, ?_⟩
      · simp [afterResolve, hp, hreq]
      · simp [afterResolve, hp, hreq, isDeferred]

/-- The calls of continuations made by a run of `after-resolve` calls on a listener without a
map. -/
theorem afterResolveAll_listener_trace (self : Nat) (calls : List (Option ResolveResult × Nat)) :
    ∀ (w : World) (p : Plugin), w.heap[self]? = some p → p.options.provider.isSome = true →
      truthy p._queryMap = false →
      (afterResolveAll self calls w).trace =
        w.trace ++ (calls.filter (fun c => !isDeferred p.options.moduleName c)).map
          (fun c => Event.callback self c.2 c.1) := by
  induction calls with
  | nil => intro w p _ _ _; simp [afterResolveAll]
  | cons c rest ih =>
    intro w p hp hprov hmap
    obtain ⟨p1, h1, ho, hq, ht⟩ := afterResolve_listener_step self w p c hp hprov hmap
    have := ih (afterResolve self c.1 c.2 w) p1 h1 (by rw [ho]; exact hprov) (by rw [hq]; exact hmap)
    simp only [afterResolveAll, List.foldl_cons] at this ⊢
    rw [this, ht, ho]
    simp [List.filter_cons]
    split <;> simp

/-- Claim C2: in a listener (provider configured) that holds no map, no run of `after-resolve`
calls, with no `_notify` in between, invokes the continuation of a request containing
`moduleName`: the continuations invoked are exactly those of the other calls, in order; and for
every request that does not contain `moduleName`, and for every request once a non-empty map is
held, the continuation is invoked at once with the unchanged result. -/
theorem afterResolve_defers_until_notify (self : Nat) (w : World) (p : Plugin)
    (hp : w.heap[self]? = some p) (hprov : p.options.provider.isSome = true) :
    (truthy p._queryMap = false →
      ∀ calls : List (Option ResolveResult × Nat),
        (afterResolveAll self calls w).trace =
          w.trace ++ (calls.filter (fun c => !isDeferred p.options.moduleName c)).map
            (fun c => Event.callback self c.2 c.1)) ∧
    (∀ (r : ResolveResult) (callback : Nat),
      (requestHasModuleName p.options.moduleName r = false ∨ truthy p._queryMap = true) →
        afterResolve self (some r) callback w =
          { w with trace := w.trace ++ [Event.callback self callback (some r)] }) := by
  constructor
  · intro hmap calls
    exact afterResolveAll_listener_trace self calls w p hp hprov hmap
  · intro r cb h
    rcases h with h | h
    · simp [afterResolve, hp, h]
    · simp [afterResolve, hp, h]

/-- Witness for C2: the theorem applied to the listener of `listenerWorld`. -/
theorem afterResolve_defers_until_notify_witness :
    (truthy listenerPlugin._queryMap = false →
      ∀ calls : List (Option ResolveResult × Nat),
        (afterResolveAll 1 calls listenerWorld).trace =
          listenerWorld.trace ++
            (calls.filter (fun c => !isDeferred listenerPlugin.options.moduleName c)).map
              (fun c => Event.callback 1 c.2 c.1)) ∧
    (∀ (r : ResolveResult) (callback : Nat),
      (requestHasModuleName listenerPlugin.options.moduleName r = false ∨
          truthy listenerPlugin._queryMap = true) →
        afterResolve 1 (some r) callback listenerWorld =
          { listenerWorld with
            trace := listenerWorld.trace ++ [Event.callback 1 callback (some r)] }) :=
  afterResolve_defers_until_notify 1 listenerWorld listenerPlugin (by decide) (by decide)

/-- A successful read of a list is within bounds. -/
theorem index_lt_of_getElem {α : Type} {l : List α} {i : Nat} {a : α} (h : l[i]? = some a) :
    i < l.length := by
  rcases Nat.lt_or_ge i l.length with h1 | h1
  · exact h1
  · rw [List.getElem?_eq_none h1] at h; cases h

/-- What `_notify` does resume: the continuation of the resolution deferred last is invoked
exactly once, after the virtual module was written with the received map whenever that map
differs from the one held, and no continuation stays stored. -/
theorem notify_resumes_last_deferred (self : Nat) (w : World) (p : Plugin) (r : ResolveResult)
    (callback : Nat) (queryMap : Option String)
    (hp : w.heap[self]? = some p) (hprov : p.options.provider.isSome = true)
    (hmap : truthy p._queryMap = false)
    (hreq : requestHasModuleName p.options.moduleName r = true) :
    (_notify self queryMap (afterResolve self (some r) callback w)).trace =
        w.trace ++ [Event.notify self queryMap] ++
          (if p._queryMap ≠ queryMap then
            [Event.writeModule self p.options.moduleName queryMap] else []) ++
          [Event.callback self callback (some r)] ∧
    (_notify self queryMap (afterResolve self (some r) callback w)).heap[self]? =
        some { p with _queryMap := queryMap, _callback := none } := by
  have hlt := index_lt_of_getElem hp
  have h1 : afterResolve self (some r) callback w =
      World.mk (w.heap.set self { p with _callback := some (Pending.mk callback r) })
        w.trace := by
    simp [afterResolve, hp, hprov, hmap, hreq]
  rw [h1]
  constructor
  · by_cases hq : p._queryMap = queryMap
    · simp [_notify, hlt, hq]
    · simp [_notify, hlt, hq]
  · simp [_notify, hlt]

/-- Claim C9, the code at the failing input: a listener defers two import resolutions, with the
continuations 7 and 9, and is then notified.  The second deferral overwrote the single
`_callback` slot, so `_notify` writes the virtual module and invokes continuation 9 only;
continuation 7 is invoked neither then nor by a second notification. -/
theorem notify_drops_earlier_deferred :
    (afterResolveAll 1 [(some ⟨"m", "a"⟩, 7), (some ⟨"m", "b"⟩, 9)] listenerWorld).trace = [] ∧
    (_notify 1 (some "\x7b\x7d")
        (afterResolveAll 1 [(some ⟨"m", "a"⟩, 7), (some ⟨"m", "b"⟩, 9)] listenerWorld)).trace =
      [Event.notify 1 (some "\x7b\x7d"), Event.writeModule 1 (some "m") (some "\x7b\x7d"),
       Event.callback 1 9 (some ⟨"m", "b"⟩)] ∧
    (_notify 1 (some "\x7b\x7d") (_notify 1 (some "\x7b\x7d")
        (afterResolveAll 1 [(some ⟨"m", "a"⟩, 7), (some ⟨"m", "b"⟩, 9)] listenerWorld))).trace =
      [Event.notify 1 (some "\x7b\x7d"), Event.writeModule 1 (some "m") (some "\x7b\x7d"),
       Event.callback 1 9 (some ⟨"m", "b"⟩), Event.notify 1 (some "\x7b\x7d")] := by
  decide


/-! ## Change detection and fan-out (C5) -/

/-- One call of `_notify` on a listener that exists. -/
theorem notify_step (self listener : Nat) (queryMap : Option String) (w : World)
    (hl : listener < w.heap.length)
    (hself : w.heap[self]?.map Plugin._queryMap = some queryMap) :
    ∃ added, (_notify listener queryMap w).trace = w.trace ++ added ∧
      notifyCalls added = [(listener, queryMap)] ∧
      (∀ name content, Event.writeModule self name content ∉ added) ∧
      (_notify listener queryMap w).heap[self]?.map Plugin._queryMap = some queryMap ∧
      (_notify listener queryMap w).heap.length = w.heap.length := by
  have hget : w.heap[listener]? = some w.heap[listener] := List.getElem?_eq_getElem hl
  generalize w.heap[listener] = pl at hget
  have hheap : (_notify listener queryMap w).heap =
      w.heap.set listener { pl with _queryMap := queryMap, _callback := none } := by
    simp [_notify, hget]
  have hkeep : (_notify listener queryMap w).heap[self]?.map Plugin._queryMap = some queryMap := by
    rw [hheap]
    by_cases hs : listener = self
    · subst hs; simp [hl]
    · rw [List.getElem?_set_ne hs]; exact hself
  have hlen : (_notify listener queryMap w).heap.length = w.heap.length := by
    rw [hheap]; simp
  by_cases hq : pl._queryMap = queryMap
  · cases hc : pl._callback with
    | none =>
      refine ⟨[Event.notify listener queryMap], ?_, ?_, ?_, hkeep, hlen⟩
      · simp [_notify, hget, hq, hc]
      · simp [notifyCalls]
      · simp
    | some pending =>
      refine ⟨[Event.notify listener queryMap,
        Event.callback listener pending.callback (some pending.result)], ?_, ?_, ?_, hkeep, hlen⟩
      · simp [_notify, hget, hq, hc]
      · simp [notifyCalls]
      · simp
  · have hns : listener ≠ self := by
      intro hs
      subst hs
      rw [hget] at hself
      simp at hself
      exact hq hself
    cases hc : pl._callback with
    | none =>
      refine ⟨[Event.notify listener queryMap,
        Event.writeModule listener pl.options.moduleName queryMap], ?_, ?_, ?_, hkeep, hlen⟩
      · simp [_notify, hget, hq, hc]
      · simp [notifyCalls]
      · intro name content; simp [Ne.symm hns]
    | some pending =>
      refine ⟨[Event.notify listener queryMap,
        Event.writeModule listener pl.options.moduleName queryMap,
        Event.callback listener pending.callback (some pending.result)], ?_, ?_, ?_, hkeep, hlen⟩
      · simp [_notify, hget, hq, hc]
      · simp [notifyCalls]
      · intro name content; simp [Ne.symm hns]

/-- The recorded calls of `_notify` of a concatenated trace. -/
theorem notifyCalls_append (a b : List Event) :
    notifyCalls (a ++ b) = notifyCalls a ++ notifyCalls b := by
  simp [notifyCalls]

/-- The fan-out loop calls `_notify` once per listener, in order, with the map the notifying
instance holds, and never writes that instance's own virtual module. -/
theorem notifyListeners_trace (self : Nat) (queryMap : Option String) (listeners : List Nat) :
    ∀ w : World, (∀ l ∈ listeners, l < w.heap.length) →
      w.heap[self]?.map Plugin._queryMap = some queryMap →
      ∃ added, (notifyListeners self listeners w).trace = w.trace ++ added ∧
        notifyCalls added = listeners.map (fun l => (l, queryMap)) ∧
        (∀ name content, Event.writeModule self name content ∉ added) ∧
        (notifyListeners self listeners w).heap[self]?.map Plugin._queryMap = some queryMap := by
  induction listeners with
  | nil =>
    intro w _ hself
    exact ⟨[], by simp [notifyListeners], by simp [notifyCalls], by simp, by simpa [notifyListeners] using hself⟩
  | cons l rest ih =>
    intro w hvalid hself
    have hunfold : notifyListeners self (l :: rest) w =
        notifyListeners self rest (_notify l queryMap w) := by
      cases hs : w.heap[self]? with
      | none => rw [hs] at hself; simp at hself
      | some p =>
        rw [hs] at hself
        have hpq : p._queryMap = queryMap := by simpa using hself
        simp [notifyListeners, hs, hpq]
    obtain ⟨a1, ht1, hn1, hw1, hk1, hlen1⟩ :=
      notify_step self l queryMap w (hvalid l (by simp)) hself
    obtain ⟨a2, ht2, hn2, hw2, hk2⟩ := ih (_notify l queryMap w)
      (fun x hx => by rw [hlen1]; exact hvalid x (by simp [hx])) hk1
    refine ⟨a1 ++ a2, ?_, ?_, ?_, ?_⟩
    · rw [hunfold, ht2, ht1, List.append_assoc]
    · rw [notifyCalls_append, hn1, hn2]; simp
    · intro name content hmem
      rcases List.mem_append.mp hmem with h | h
      · exact hw1 name content h
      · exact hw2 name content h
    · rw [hunfold]
      exact hk2

/-- Claim C5, amended: if the serialized map newly computed at seal equals the map this instance
holds, the instance republishes nothing (its own virtual module is not written, the modules are
left as they are, its map stays), but the `_notify` of every registered listener is still invoked,
once each, in registration order, with that unchanged map. -/
theorem seal_unchanged_notifies_listeners (env : External) (self : Nat)
    (compilation : Compilation) (w : World) (p : Plugin) (listeners : List Nat)
    (allQueries : List String) (mapObj : Option (JSObject Identifier))
    (hp : w.heap[self]? = some p) (hl : p._listeners = some listeners)
    (hvalid : ∀ l ∈ listeners, l < w.heap.length)
    (hq : collectQueries env p.options.addTypename compilation.modules = .ok allQueries)
    (hm : buildMapObj env p.options allQueries = .ok mapObj)
    (hsame : mapObj.map stringify = p._queryMap) :
    ∃ w1 added, onSeal env self compilation w = .ok (w1, compilation.modules) ∧
      w1.trace = w.trace ++ added ∧
      notifyCalls added = listeners.map (fun l => (l, p._queryMap)) ∧
      (∀ name content, Event.writeModule self name content ∉ added) ∧
      w1.heap[self]?.map Plugin._queryMap = some p._queryMap := by
  obtain ⟨added, ht, hn, hw, hk⟩ := notifyListeners_trace self p._queryMap listeners w hvalid
    (by rw [hp]; rfl)
  refine ⟨notifyListeners self listeners w, added, ?_, ht, hn, hw, hk⟩
  simp [onSeal, hp, hq, hm, hsame, hl]

/-- Witness for C5: the second seal of `sampleCompilation` by the provider of `sealedWorld`. -/
theorem seal_unchanged_notifies_listeners_witness :
    ∃ w1 added, onSeal sampleExternal 0 sampleCompilation sealedWorld =
        .ok (w1, sampleCompilation.modules) ∧
      w1.trace = sealedWorld.trace ++ added ∧
      notifyCalls added = [(1, some "\x7b\"query A\":1\x7d")] ∧
      (∀ name content, Event.writeModule 0 name content ∉ added) ∧
      w1.heap[0]?.map Plugin._queryMap = some (some "\x7b\"query A\":1\x7d") :=
  seal_unchanged_notifies_listeners sampleExternal 0 sampleCompilation sealedWorld
    { options := { moduleName := some "m" }, _listeners := some [1],
      _queryMap := some "\x7b\"query A\":1\x7d", _callback := none }
    [1] ["query A"] (some [("query A", Identifier.number 1)])
    (by decide) (by decide) (by decide) (by decide) (by decide) (by decide)

/-- Counterexample to C5 as stated: the provider of `listenerWorld` seals the same compilation
twice; the second seal computes the map it already published, and the listener's `_notify` is
invoked all the same. -/
theorem seal_unchanged_still_notifies :
    onSeal sampleExternal 0 sampleCompilation listenerWorld =
        .ok (sealedWorld, sampleCompilation.modules) ∧
    onSeal sampleExternal 0 sampleCompilation sealedWorld =
        .ok ({ sealedWorld with
                trace := sealedWorld.trace ++ [Event.notify 1 (some "\x7b\"query A\":1\x7d")] },
             sampleCompilation.modules) := by
  decide


/-! ## The empty build (C8) -/

/-- Whatever the collaborators are, a build whose modules carry neither attribute collects
nothing and builds no map object, so the text that is serialized is `undefined`. -/
theorem empty_build_has_no_map (env : External) (options : Options) (modules : List Module)
    (h : ∀ m ∈ modules, m._graphQLQueries = none ∧ truthy m._graphQLString = false) :
    collectQueries env options.addTypename modules = .ok [] ∧
      (buildMapObj env options []).map (Option.map stringify) = .ok none := by
  have hc : ∀ (ms : List Module) (acc : List String × String),
      (∀ m ∈ ms, m._graphQLQueries = none ∧ truthy m._graphQLString = false) →
      collectModules env options.addTypename ms acc = .ok acc := by
    intro ms
    induction ms with
    | nil => intro acc _; simp [collectModules]
    | cons m rest ih =>
      intro acc hm
      obtain ⟨a, g⟩ := acc
      have h1 := hm m (by simp)
      simp only [collectModules, h1.1, h1.2, Bool.false_eq_true, if_false]
      exact ih (a, g) (fun x hx => hm x (by simp [hx]))
  constructor
  · simp [collectQueries, hc modules ([], "") h]
  · simp [buildMapObj, Except.map]

/-- Claim C8, the code at the failing input: a first build whose only module carries neither
attribute.  The compilation hook seeds the virtual module with the empty object, but after seal
the instance holds `undefined`, its listener was notified with `undefined`, and `after-compile`
emits `undefined` as the artifact. -/
theorem seal_empty_build_holds_undefined :
    (onCompilation 0 false emittingWorld).trace =
      [Event.writeModule 0 (some "m") (some "\x7b\x7d")] ∧
    (onSeal sampleExternal 0 emptyCompilation emittingWorld).map
        (fun r => (r.1.heap.map Plugin._queryMap, r.1.trace, afterCompile 0 false [] r.1)) =
      .ok ([none, none], [Event.notify 1 none], [("out.json", none)]) := by
  decide

/-! ## Collecting operation texts (C7, C10) -/

/-- Without the typename transform the push loop appends the keys as they are. -/
theorem pushQueries_plain (env : External) (keys : List String) :
    ∀ allQueries, pushQueries env false keys allQueries = .ok (allQueries ++ keys) := by
  induction keys with
  | nil => intro a; simp [pushQueries]
  | cons k rest ih => intro a; simp [pushQueries, ih]

/-- The push loop only appends to what `allQueries` already holds. -/
theorem pushQueries_acc (env : External) (addTypename : Bool) (keys : List String) :
    ∀ allQueries, pushQueries env addTypename keys allQueries =
      match pushQueries env addTypename keys [] with
      | .error e => .error e
      | .ok texts => .ok (allQueries ++ texts) := by
  induction keys with
  | nil => intro a; simp [pushQueries]
  | cons k rest ih =>
    intro a
    cases addTypename with
    | false =>
      simp only [pushQueries, Bool.false_eq_true, if_false]
      rw [ih (a ++ [k]), ih ([] ++ [k])]
      cases pushQueries env false rest [] <;> simp
    | true =>
      simp only [pushQueries, if_true]
      cases env.printWithTypename k with
      | error e => simp
      | ok printed =>
        simp only []
        rw [ih (a ++ [printed]), ih ([] ++ [printed])]
        cases pushQueries env true rest [] <;> simp

/-- Claim C7, amended: for every module carrying a named-operations mapping, the collector
appends each key of that mapping (not its values), in the order `Object.keys` gives them, to the
output operation list, unchanged when `addTypename` is off. -/
theorem collector_appends_keys (env : External) (m : Module) (queries : JSObject String)
    (rest : List Module) (allQueries : List String) (graphQLString : String) :
    collectModules env false ({ m with _graphQLQueries := some queries } :: rest)
        (allQueries, graphQLString) =
      collectModules env false rest (allQueries ++ JSObject.keys queries, graphQLString) := by
  simp [collectModules, pushQueries_plain]

/-- Counterexample to C7 as stated: for the mapping `{ getCount: "query getCount" }` from
operation name to operation text, the collected list holds the key, not the value. -/
theorem collector_appends_keys_not_values :
    collectQueries sampleExternal false
        [{ resource := some "entry.js", _graphQLQueries := some [("getCount", "query getCount")],
           _graphQLString := none, _source := none }] = .ok ["getCount"] ∧
    collectQueries sampleExternal false
        [{ resource := some "entry.js", _graphQLQueries := some [("getCount", "query getCount")],
           _graphQLString := none, _source := none }] ≠ .ok ["query getCount"] := by
  decide

/-- Appending strings from a start value. -/
theorem foldl_append_init (l : List String) :
    ∀ init : String, List.foldl (fun r s => r ++ s) init l =
      init ++ List.foldl (fun r s => r ++ s) "" l := by
  induction l with
  | nil => intro init; simp
  | cons x rest ih =>
    intro init
    simp only [List.foldl_cons]
    rw [ih (init ++ x), ih ("" ++ x)]
    simp [String.append_assoc]

/-- The function `String.join` on a non-empty list. -/
theorem string_join_cons (s : String) (l : List String) :
    String.join (s :: l) = s ++ String.join l := by
  simp only [String.join, List.foldl_cons]
  rw [foldl_append_init]
  simp

/-- The module loop: named texts module by module, raw strings concatenated. -/
theorem collectModules_eq (env : External) (addTypename : Bool) (modules : List Module) :
    ∀ allQueries graphQLString,
      collectModules env addTypename modules (allQueries, graphQLString) =
        match modules.mapM (namedTexts env addTypename) with
        | .error e => .error e
        | .ok parts =>
          .ok (allQueries ++ parts.flatten, graphQLString ++ String.join (modules.map rawText)) := by
  induction modules with
  | nil =>
    intro a g
    rw [List.mapM_nil]
    simp [collectModules, pure, Except.pure, String.join]
  | cons m rest ih =>
    intro a g
    cases hq : m._graphQLQueries with
    | some queries =>
      simp only [collectModules, hq, List.mapM_cons, namedTexts]
      rw [pushQueries_acc]
      cases pushQueries env addTypename (JSObject.keys queries) [] with
      | error e => simp [bind, Except.bind]
      | ok texts =>
        simp only [ih, bind, Except.bind]
        cases List.mapM (namedTexts env addTypename) rest with
        | error e => simp
        | ok parts => simp [pure, Except.pure, rawText, hq, string_join_cons]
    | none =>
      by_cases ht : truthy m._graphQLString = true
      · simp only [collectModules, hq, ht, if_true, List.mapM_cons, namedTexts, ih, bind,
          Except.bind]
        cases List.mapM (namedTexts env addTypename) rest with
        | error e => simp
        | ok parts =>
          simp [pure, Except.pure, rawText, hq, ht, string_join_cons, String.append_assoc]
      · simp only [collectModules, hq, ht, List.mapM_cons, namedTexts, ih, bind,
          Except.bind]
        cases List.mapM (namedTexts env addTypename) rest with
        | error e => simp
        | ok parts =>
          simp [pure, Except.pure, rawText, hq, ht, string_join_cons]

/-- Claim C10, amended: the collected list holds first the texts contributed through
named-operations mappings, module by module in enumeration order, and after all of them the texts
extracted from the raw blob, which is the concatenation of the raw strings in enumeration order;
so module order is preserved among mapping modules and inside the blob, while every blob text
follows every mapping text. -/
theorem collect_keeps_named_order_then_blob (env : External) (addTypename : Bool)
    (modules : List Module) :
    collectQueries env addTypename modules =
      match modules.mapM (namedTexts env addTypename) with
      | .error e => .error e
      | .ok parts =>
        match blobTexts env addTypename (String.join (modules.map rawText)) with
        | .error e => .error e
        | .ok extracted => .ok (parts.flatten ++ extracted) := by
  simp only [collectQueries, collectModules_eq]
  cases List.mapM (namedTexts env addTypename) modules with
  | error e => simp
  | ok parts =>
    simp only [blobTexts, List.nil_append]
    have : ("" : String) ++ String.join (modules.map rawText) = String.join (modules.map rawText) := by
      simp
    rw [this]
    by_cases hb : (String.join (modules.map rawText) != "") = true
    · simp only [hb, if_true]
      cases blobQueries env addTypename (String.join (modules.map rawText)) <;> simp
    · simp [hb]

/-- Counterexample to C10 as stated: a module with a raw string enumerated before a module with
a mapping; the text of the first module comes after the text of the second. -/
theorem collect_puts_blob_after_named :
    collectQueries sampleExternal false
        [{ resource := some "a.graphql", _graphQLQueries := none,
           _graphQLString := some "query A", _source := none },
         { resource := some "entry.js", _graphQLQueries := some [("query B", "1")],
           _graphQLString := none, _source := none }] = .ok ["query B", "query A"] := by
  decide

/-! ## Identifier assignment and hashing (C3, C4) -/

/-- Keys of a concatenation. -/
theorem keys_append {α : Type} (a b : JSObject α) :
    JSObject.keys (a ++ b) = JSObject.keys a ++ JSObject.keys b := by
  simp [JSObject.keys]

/-- Assigning a key the object does not have appends it. -/
theorem set_of_not_mem {α : Type} (o : JSObject α) (k : String) (v : α)
    (h : k ∉ JSObject.keys o) : JSObject.set o k v = o ++ [(k, v)] := by
  induction o with
  | nil => simp [JSObject.set]
  | cons kv rest ih =>
    obtain ⟨k0, v0⟩ := kv
    simp [JSObject.keys] at h
    have h0 : ¬ k0 = k := fun e => h.1 e.symm
    have hr : k ∉ JSObject.keys rest := by
      simp [JSObject.keys]; exact h.2
    simp [JSObject.set, h0, ih hr]

/-- Identifier assignment, one text more. -/
theorem assignIdentifiers_snoc (texts : List String) (t : String) :
    assignIdentifiers (texts ++ [t]) =
      if (JSObject.keys (assignIdentifiers texts)).contains t then assignIdentifiers texts
      else assignIdentifiers texts ++ [(t, (assignIdentifiers texts).length + 1)] := by
  simp [assignIdentifiers, List.foldl_append]

/-- What identifier assignment yields: distinct keys, exactly the texts, ordered by first
appearance, numbered from 1. -/
theorem assignIdentifiers_spec (texts : List String) :
    (JSObject.keys (assignIdentifiers texts)).Nodup ∧
    (∀ t, t ∈ JSObject.keys (assignIdentifiers texts) ↔ t ∈ texts) ∧
    (JSObject.keys (assignIdentifiers texts)).Pairwise
      (fun a b => texts.indexOf a < texts.indexOf b) ∧
    (assignIdentifiers texts).map Prod.snd = List.range' 1 (assignIdentifiers texts).length := by
  induction texts using List.reverseRecOn with
  | nil => simp [assignIdentifiers, JSObject.keys]
  | append_singleton texts t ih =>
    obtain ⟨hnd, hmem, hord, hval⟩ := ih
    rw [assignIdentifiers_snoc]
    by_cases ht : t ∈ texts
    · have hc : (JSObject.keys (assignIdentifiers texts)).contains t = true := by
        simpa using (hmem t).mpr ht
      simp only [hc, if_true]
      refine ⟨hnd, ?_, ?_, hval⟩
      · intro x
        rw [hmem x]
        simp only [List.mem_append, List.mem_singleton]
        constructor
        · exact Or.inl
        · rintro (h | h)
          · exact h
          · rw [h]; exact ht
      · refine hord.imp_of_mem ?_
        intro a b ha hb hab
        rw [List.indexOf_append_of_mem ((hmem a).mp ha),
          List.indexOf_append_of_mem ((hmem b).mp hb)]
        exact hab
    · have hc : (JSObject.keys (assignIdentifiers texts)).contains t = false := by
        have : t ∉ JSObject.keys (assignIdentifiers texts) := fun h => ht ((hmem t).mp h)
        simpa using this
      simp only [hc, Bool.false_eq_true, if_false]
      refine ⟨?_, ?_, ?_, ?_⟩
      · rw [keys_append]
        refine List.Nodup.append hnd (by simp [JSObject.keys]) ?_
        intro x hx hx2
        simp [JSObject.keys] at hx2
        subst hx2
        exact ht ((hmem _).mp hx)
      · intro x
        rw [keys_append]
        simp only [List.mem_append, hmem x]
        simp [JSObject.keys]
      · rw [keys_append, List.pairwise_append]
        refine ⟨?_, by simp [JSObject.keys], ?_⟩
        · refine hord.imp_of_mem ?_
          intro a b ha hb hab
          rw [List.indexOf_append_of_mem ((hmem a).mp ha),
            List.indexOf_append_of_mem ((hmem b).mp hb)]
          exact hab
        · intro a ha b hb
          simp [JSObject.keys] at hb
          subst hb
          rw [List.indexOf_append_of_mem ((hmem a).mp ha), List.indexOf_append_of_not_mem ht]
          have := List.indexOf_lt_length.mpr ((hmem a).mp ha)
          simp
          omega
      · rw [List.map_append, hval]
        simp [List.range'_concat]
        omega

/-- Filling `newMap` from the keys of an object with distinct keys keeps the keys in place. -/
theorem foldl_set_fresh {α : Type} (f : String → α) (keys : List String) :
    ∀ acc : JSObject α, keys.Nodup → (∀ k ∈ keys, k ∉ JSObject.keys acc) →
      keys.foldl (fun newMap query => JSObject.set newMap query (f query)) acc =
        acc ++ keys.map (fun k => (k, f k)) := by
  induction keys with
  | nil => intro acc _ _; simp
  | cons k rest ih =>
    intro acc hnd hfresh
    rw [List.nodup_cons] at hnd
    simp only [List.foldl_cons, List.map_cons]
    rw [set_of_not_mem acc k (f k) (hfresh k (by simp))]
    rw [ih (acc ++ [(k, f k)]) hnd.2]
    · simp
    · intro x hx
      rw [keys_append]
      simp only [List.mem_append, not_or]
      refine ⟨hfresh x (by simp [hx]), ?_⟩
      simp [JSObject.keys]
      intro e
      subst e
      exact hnd.1 hx

/-- The hashing loop maps every key to its digest and keeps the order of the keys. -/
theorem hashKeys_eq (hash : String → String) (mapObj : JSObject Nat)
    (hnd : (JSObject.keys mapObj).Nodup) :
    hashKeys hash mapObj = mapObj.map (fun kv => (kv.1, Identifier.text (hash kv.1))) := by
  unfold hashKeys
  rw [foldl_set_fresh (fun q => Identifier.text (hash q)) _ [] hnd (by simp [JSObject.keys])]
  simp [JSObject.keys]

/-- Only the exact name "sha256" selects the 256-bit digest. -/
theorem selectHash_eq (env : External) (hashingAlgorithm : Option String) :
    selectHash env hashingAlgorithm =
      if hashingAlgorithm = some "sha256" then env.sha256 else env.sha512 := by
  unfold selectHash
  split <;> simp

/-- Claim C4: with `useHashes` enabled, the seal step's map has exactly the keys of the
sequential-id map, in the same order, and maps every key to the digest of that key's text: the
256-bit digest if `hashingAlgorithm` is exactly "sha256", and the 512-bit digest for every other
value ("sha512", `undefined`, unrecognized names). -/
theorem hashed_map_keeps_keys_and_digests (env : External) (options : Options)
    (allQueries : List String) :
    buildMapObj env { options with useHashes := true } allQueries =
      (buildMapObj env { options with useHashes := false } allQueries).map
        (Option.map (fun sequential => sequential.map (fun kv =>
          (kv.1, Identifier.text
            ((if options.hashingAlgorithm = some "sha256" then env.sha256 else env.sha512)
              kv.1))))) := by
  unfold buildMapObj
  by_cases hlen : (allQueries.length != 0) = true
  · simp only [hlen, if_true]
    unfold createOutputMapFromString
    cases env.canonicalOperations options.addTypename ("\n".intercalate allQueries) with
    | error e => simp [Except.map]
    | ok texts =>
      simp only [Except.map, if_true, Bool.false_eq_true, if_false, Option.map_some']
      rw [hashKeys_eq _ _ (assignIdentifiers_spec texts).1, selectHash_eq]
      simp [List.map_map, Function.comp]
  · simp [hlen, Except.map]

/-- Claim C3: in default (non-hashing) mode, for every collected list of operation texts, read
back by the parser as the canonical text of each collected text in the order of the list, the
seal step's map has exactly one key per distinct canonical operation text, the keys stand in order
of first appearance in the list, and the i-th key has the identifier i, starting at 1.  For the
empty list no map object is built; it is read as a map without keys. -/
theorem sequential_ids_in_order_of_first_appearance (env : External) (options : Options)
    (allQueries : List String) (canon : String → String)
    (hcanon : allQueries ≠ [] →
      env.canonicalOperations options.addTypename ("\n".intercalate allQueries) =
        .ok (allQueries.map canon)) :
    ∃ (mapObj : Option (JSObject Identifier)) (ids : JSObject Nat),
      buildMapObj env { options with useHashes := false } allQueries = .ok mapObj ∧
      mapObj.getD [] = ids.map (fun kv => (kv.1, Identifier.number kv.2)) ∧
      (JSObject.keys ids).Nodup ∧
      (∀ t, t ∈ JSObject.keys ids ↔ t ∈ allQueries.map canon) ∧
      (JSObject.keys ids).Pairwise (fun a b =>
        (allQueries.map canon).indexOf a < (allQueries.map canon).indexOf b) ∧
      ids.map Prod.snd = List.range' 1 ids.length := by
  by_cases hne : allQueries = []
  · subst hne
    exact ⟨none, [], by simp [buildMapObj], by simp, by simp [JSObject.keys],
      by simp [JSObject.keys], by simp [JSObject.keys], by simp⟩
  · have hlen : allQueries.length ≠ 0 := by
      intro h; exact hne (List.length_eq_zero.mp h)
    refine ⟨some ((assignIdentifiers (allQueries.map canon)).map
      (fun kv => (kv.1, Identifier.number kv.2))), assignIdentifiers (allQueries.map canon),
      ?_, by simp, assignIdentifiers_spec (allQueries.map canon)⟩
    simp [buildMapObj, hlen, createOutputMapFromString, hcanon hne]

/-- Witness for C3: the scenario of the test suite, the subscription `onCounterUpdated` followed
by the query `getCount` (and the subscription once more), yields the identifiers 1 and 2 and the
serialized map the test expects. -/
theorem sequential_ids_in_order_of_first_appearance_witness :
    (scenarioQueries ≠ [] →
      scenarioExternal.canonicalOperations false ("\n".intercalate scenarioQueries) =
        .ok (scenarioQueries.map scenarioCanon)) ∧
    (buildMapObj scenarioExternal {} scenarioQueries).map (Option.map stringify) =
      .ok (some ("\x7b\"subscription onCounterUpdated \x7b\\n  counterUpdated \x7b\\n    " ++
        "amount\\n  \x7d\\n\x7d\\n\":1,\"query getCount \x7b\\n  count \x7b\\n    " ++
        "amount\\n  \x7d\\n\x7d\\n\":2\x7d")) ∧
    (∃ (mapObj : Option (JSObject Identifier)) (ids : JSObject Nat),
      buildMapObj scenarioExternal {} scenarioQueries = .ok mapObj ∧
      mapObj.getD [] = ids.map (fun kv => (kv.1, Identifier.number kv.2)) ∧
      (JSObject.keys ids).Nodup ∧
      (∀ t, t ∈ JSObject.keys ids ↔ t ∈ scenarioQueries.map scenarioCanon) ∧
      (JSObject.keys ids).Pairwise (fun a b =>
        (scenarioQueries.map scenarioCanon).indexOf a <
          (scenarioQueries.map scenarioCanon).indexOf b) ∧
      ids.map Prod.snd = List.range' 1 ids.length) :=
  ⟨fun _ => by decide, by decide,
    sequential_ids_in_order_of_first_appearance scenarioExternal {} scenarioQueries
      scenarioCanon (fun _ => by decide)⟩

/-! ## The fragment loop (C6) -/

/-- Fragment names of a list with one more definition. -/
theorem fragmentNames_snoc (l : List Definition) (d : Definition) :
    fragmentNames (l ++ [d]) =
      if d.kind = "FragmentDefinition" then fragmentNames l ++ [d.name] else fragmentNames l := by
  unfold fragmentNames
  by_cases h : d.kind = "FragmentDefinition" <;> simp [List.filter_append, h]

/-- Reading `fragmentMap` after one more name was set. -/
theorem fragmentMapTruthy_cons (own : List String) (a name : String) :
    fragmentMapTruthy (a :: own) name = true ↔ name = a ∨ fragmentMapTruthy own name = true := by
  simp only [fragmentMapTruthy, Bool.or_eq_true, List.contains_eq_any_beq, List.any_cons,
    beq_iff_eq]
  tauto

theorem keepWith_snoc_other (pre : List Definition) (d : Definition) (own : List String)
    (hd : d.kind ≠ "FragmentDefinition") :
    keepWith (pre ++ [d]) own = keepWith pre own ++ [d] := by
  induction pre with
  | nil => simp [keepWith, hd]
  | cons x rest ih =>
    have e : (x :: rest) ++ [d] = x :: (rest ++ [d]) := rfl
    rw [e]
    simp only [keepWith, fragmentNames_snoc, hd, if_false, ih]
    split <;> simp

theorem keepWith_snoc_fresh (pre : List Definition) (d : Definition) (own : List String)
    (hd : d.kind = "FragmentDefinition") (hf : fragmentMapTruthy own d.name = false) :
    keepWith (pre ++ [d]) own = keepWith pre (d.name :: own) ++ [d] := by
  induction pre with
  | nil => simp [keepWith, hd, hf, fragmentNames]
  | cons x rest ih =>
    have e : (x :: rest) ++ [d] = x :: (rest ++ [d]) := rfl
    rw [e]
    simp only [keepWith, fragmentNames_snoc, hd, if_true, ih,
      fragmentMapTruthy_cons, List.mem_append, List.mem_singleton]
    have : (x.kind = "FragmentDefinition" ∧
        ((x.name ∈ fragmentNames rest ∨ x.name = d.name) ∨ fragmentMapTruthy own x.name = true)) ↔
        (x.kind = "FragmentDefinition" ∧
        (x.name ∈ fragmentNames rest ∨ x.name = d.name ∨ fragmentMapTruthy own x.name = true)) := by
      tauto
    by_cases hc : (x.kind = "FragmentDefinition" ∧
        (x.name ∈ fragmentNames rest ∨ x.name = d.name ∨ fragmentMapTruthy own x.name = true))
    · rw [if_pos (this.mpr hc), if_pos hc]
    · rw [if_neg (fun h => hc (this.mp h)), if_neg hc]
      simp

theorem keepWith_snoc_seen (pre : List Definition) (d : Definition) (own : List String)
    (hd : d.kind = "FragmentDefinition") (hf : fragmentMapTruthy own d.name = true) :
    keepWith (pre ++ [d]) own = keepWith pre own := by
  induction pre with
  | nil => simp [keepWith, hd, hf]
  | cons x rest ih =>
    have e : (x :: rest) ++ [d] = x :: (rest ++ [d]) := rfl
    rw [e]
    simp only [keepWith, fragmentNames_snoc, hd, if_true, ih,
      List.mem_append, List.mem_singleton]
    have : (x.kind = "FragmentDefinition" ∧
        ((x.name ∈ fragmentNames rest ∨ x.name = d.name) ∨ fragmentMapTruthy own x.name = true)) ↔
        (x.kind = "FragmentDefinition" ∧
        (x.name ∈ fragmentNames rest ∨ fragmentMapTruthy own x.name = true)) := by
      constructor
      · rintro ⟨h1, (h2 | h2) | h2⟩
        · exact ⟨h1, Or.inl h2⟩
        · exact ⟨h1, Or.inr (by rw [h2]; exact hf)⟩
        · exact ⟨h1, Or.inr h2⟩
      · rintro ⟨h1, h2 | h2⟩
        · exact ⟨h1, Or.inl (Or.inl h2)⟩
        · exact ⟨h1, Or.inr h2⟩
    by_cases hc : (x.kind = "FragmentDefinition" ∧
        (x.name ∈ fragmentNames rest ∨ fragmentMapTruthy own x.name = true))
    · rw [if_pos (this.mpr hc), if_pos hc]
    · rw [if_neg (fun h => hc (this.mp h)), if_neg hc]

/-- The loop, entered below a processed suffix, leaves the suffix alone and filters the rest. -/
theorem fragmentLoop_eq_keepWith (pre : List Definition) :
    ∀ (post : List Definition) (own : List String),
      fragmentLoop pre.length (pre ++ post) own = keepWith pre own ++ post := by
  induction pre using List.reverseRecOn with
  | nil => intro post own; simp [fragmentLoop, keepWith]
  | append_singleton pre d ih =>
    intro post own
    have hget : (pre ++ [d] ++ post)[pre.length]? = some d := by
      rw [List.append_assoc, List.getElem?_append_right (Nat.le_refl _)]
      simp
    have hlen : (pre ++ [d]).length = pre.length + 1 := by simp
    rw [hlen]
    simp only [fragmentLoop, hget]
    by_cases hd : d.kind = "FragmentDefinition"
    · simp only [hd, if_true]
      cases hf : fragmentMapTruthy own d.name with
      | false =>
        simp only [Bool.not_false, if_true]
        rw [keepWith_snoc_fresh pre d own hd hf]
        have := ih (d :: post) (d.name :: own)
        simpa using this
      | true =>
        simp only [Bool.not_true, Bool.false_eq_true, if_false]
        rw [keepWith_snoc_seen pre d own hd hf]
        have he : (pre ++ [d] ++ post).eraseIdx pre.length = pre ++ post := by
          rw [List.append_assoc, List.eraseIdx_append_of_length_le (Nat.le_refl _)]
          simp
        rw [he]
        exact ih post own
    · simp only [hd, if_false]
      rw [keepWith_snoc_other pre d own hd]
      have := ih (d :: post) own
      simpa using this

/-- The loop on a whole document, as a forward filter. -/
theorem dedupeFragments_eq_keepWith (document : Document) :
    (dedupeFragments document).definitions = keepWith document.definitions [] := by
  have := fragmentLoop_eq_keepWith document.definitions [] []
  simpa [dedupeFragments] using this

theorem keepWith_eq_keepLast (definitions : List Definition)
    (h : ∀ d ∈ definitions, d.kind = "FragmentDefinition" → d.name ∉ objectPrototypeKeys) :
    keepWith definitions [] = keepLast definitions := by
  induction definitions with
  | nil => rfl
  | cons d rest ih =>
    have hrest := ih (fun x hx => h x (by simp [hx]))
    simp only [keepWith, keepLast, hrest]
    by_cases hd : d.kind = "FragmentDefinition"
    · have hp : fragmentMapTruthy [] d.name = false := by
        have := h d (by simp) hd
        simp [fragmentMapTruthy, this]
      simp [hd, hp]
    · simp [hd]

/-- Reading a property after an assignment. -/
theorem lookup_set {α : Type} (o : JSObject α) (k : String) (v : α) (name : String) :
    (JSObject.set o k v).lookup name = if name = k then some v else o.lookup name := by
  induction o with
  | nil =>
    by_cases h : name = k
    · simp [JSObject.set, List.lookup, h]
    · have hb : (name == k) = false := beq_false_of_ne h
      simp [JSObject.set, List.lookup, h, hb]
  | cons kv rest ih =>
    obtain ⟨k0, v0⟩ := kv
    by_cases h0 : k0 = k
    · subst h0
      by_cases h : name = k0
      · simp [JSObject.set, List.lookup, h]
      · have hb : (name == k0) = false := beq_false_of_ne h
        simp [JSObject.set, List.lookup, h, hb]
    · by_cases h1 : name = k0
      · have h : ¬ name = k := fun e => h0 (h1.symm.trans e)
        simp [JSObject.set, List.lookup, h0, h1, h]
      · have hb : (name == k0) = false := beq_false_of_ne h1
        simp [JSObject.set, List.lookup, h0, hb, ih]

theorem lastSeenIndex_snoc (l : List Definition) (d : Definition) :
    lastSeenIndex (l ++ [d]) =
      if d.kind = "FragmentDefinition" then JSObject.set (lastSeenIndex l) d.name l.length
      else lastSeenIndex l := by
  simp [lastSeenIndex, List.enum, List.enumFrom_append, List.foldl_append]

theorem lookup_lastSeenIndex_of_not_mem (post : List Definition) :
    ∀ (pre : List Definition) (name : String), name ∉ fragmentNames post →
      (lastSeenIndex (pre ++ post)).lookup name = (lastSeenIndex pre).lookup name := by
  induction post using List.reverseRecOn with
  | nil => intro pre name _; simp
  | append_singleton post d ih =>
    intro pre name hn
    rw [fragmentNames_snoc] at hn
    rw [← List.append_assoc, lastSeenIndex_snoc]
    by_cases hd : d.kind = "FragmentDefinition"
    · simp only [hd, if_true, List.mem_append, List.mem_singleton, not_or] at hn ⊢
      rw [lookup_set, if_neg hn.2]
      exact ih pre name hn.1
    · simp only [hd, if_false] at hn ⊢
      exact ih pre name hn

theorem lookup_lastSeenIndex_of_mem (post : List Definition) :
    ∀ (pre : List Definition) (name : String), name ∈ fragmentNames post →
      ∃ j, (lastSeenIndex (pre ++ post)).lookup name = some j ∧ pre.length ≤ j := by
  induction post using List.reverseRecOn with
  | nil => intro pre name h; simp [fragmentNames] at h
  | append_singleton post d ih =>
    intro pre name hn
    rw [fragmentNames_snoc] at hn
    rw [← List.append_assoc, lastSeenIndex_snoc]
    by_cases hd : d.kind = "FragmentDefinition"
    · simp only [hd, if_true, List.mem_append, List.mem_singleton] at hn ⊢
      rw [lookup_set]
      by_cases hname : name = d.name
      · exact ⟨(pre ++ post).length, by simp [hname], by simp⟩
      · rw [if_neg hname]
        rcases hn with h | h
        · exact ih pre name h
        · exact absurd h hname
    · simp only [hd, if_false] at hn ⊢
      exact ih pre name hn

theorem filter_lastSeen_eq_keepLast (post : List Definition) :
    ∀ pre : List Definition,
      ((post.enumFrom pre.length).filter (fun p =>
        p.2.kind ≠ "FragmentDefinition" ||
          (lastSeenIndex (pre ++ post)).lookup p.2.name == some p.1)).map Prod.snd =
        keepLast post := by
  induction post with
  | nil => intro pre; simp [keepLast]
  | cons d post ih =>
    intro pre
    have hrest := ih (pre ++ [d])
    have hl : (pre ++ [d]).length = pre.length + 1 := by simp
    have ha : pre ++ [d] ++ post = pre ++ d :: post := by simp
    rw [hl, ha] at hrest
    simp only [ne_eq, decide_not] at hrest
    simp only [List.enumFrom_cons, List.filter_cons, keepLast]
    by_cases hd : d.kind = "FragmentDefinition"
    · by_cases hm : d.name ∈ fragmentNames post
      · obtain ⟨j, hj, hle⟩ := lookup_lastSeenIndex_of_mem post (pre ++ [d]) d.name hm
        rw [ha] at hj
        have hne : ¬ j = pre.length := by
          rw [hl] at hle; omega
        simp [hd, hm, hj, hne, hrest]
      · have hj := lookup_lastSeenIndex_of_not_mem post (pre ++ [d]) d.name hm
        rw [ha, lastSeenIndex_snoc] at hj
        simp only [hd, if_true, lookup_set] at hj
        simp [hd, hm, hj, hrest]
    · simp [hd, hrest]

/-- The two readings of the specification agree. -/
theorem keepLastSeen_eq_keepLast (definitions : List Definition) :
    keepLastSeen definitions = keepLast definitions := by
  have := filter_lastSeen_eq_keepLast definitions []
  simpa [keepLastSeen, List.enum] using this

/-- Apart from the names inherited from `Object.prototype`, the loop is the forward filter of the
specification. -/
theorem dedupeFragments_eq_keepLastSeen (document : Document)
    (h : ∀ d ∈ document.definitions, d.kind = "FragmentDefinition" →
      d.name ∉ objectPrototypeKeys) :
    (dedupeFragments document).definitions = keepLastSeen document.definitions := by
  rw [dedupeFragments_eq_keepWith, keepWith_eq_keepLast _ h, keepLastSeen_eq_keepLast]

/-- Claim C6, the code at the failing input: a document with one fragment named `constructor`
and an operation that spreads it.  Reading `fragmentMap["constructor"]` from the literal `{}`
gives the inherited `Object`, so the loop splices the only definition of the fragment away; the
forward filter of the specification keeps it. -/
theorem fragment_named_constructor_is_dropped :
    dedupeFragments { definitions :=
        [{ kind := "FragmentDefinition", name := "constructor", body := "on T \x7b id \x7d" },
         { kind := "OperationDefinition", name := "Q", body := "\x7b ...constructor \x7d" }] } =
      { definitions :=
        [{ kind := "OperationDefinition", name := "Q", body := "\x7b ...constructor \x7d" }] } ∧
    keepLastSeen
        [{ kind := "FragmentDefinition", name := "constructor", body := "on T \x7b id \x7d" },
         { kind := "OperationDefinition", name := "Q", body := "\x7b ...constructor \x7d" }] =
      [{ kind := "FragmentDefinition", name := "constructor", body := "on T \x7b id \x7d" },
       { kind := "OperationDefinition", name := "Q", body := "\x7b ...constructor \x7d" }] := by
  decide

end PersistGraphQL
